import Mathlib

/-!
Verification of the nextion serial-client protocol engine.

A shallow embedding, in Lean 4, of the byte-stream framer, the command
executor, the power-state coordinator and the connect scan of the
`nextion` Python package, together with proofs of the behavioural
properties stated in the specification.

Bytes are modelled as natural numbers, byte strings as `List Nat`.
Python's stateful methods become explicit state-passing functions.
Recursions of the source whose depth is bounded by the buffer length are
written with an explicit fuel argument set to that length; lemmas below
show the fuel is irrelevant once it is at least the buffer length, so the
fuelled functions agree with the source's unbounded recursion.
-/

namespace Nextion

/-! ## Byte-stream framer (`nextion/protocol/nextion.py`) -/

/-- `NextionProtocol.EOL`: the frame terminator `\xff\xff\xff`. -/
def EOL : List Nat := [0xff, 0xff, 0xff]

/-- `NextionProtocol.PACKET_LENGTH_MAP`: leading byte to declared total
packet length (terminator included). -/
def packetLengthMap : Nat → Option Nat
  | 0x00 => some 6    -- Nextion Startup
  | 0x24 => some 4    -- Serial Buffer Overflow
  | 0x65 => some 7    -- Touch Event
  | 0x66 => some 5    -- Current Page Number
  | 0x67 => some 9    -- Touch Coordinate(awake)
  | 0x68 => some 9    -- Touch Coordinate(sleep)
  | 0x71 => some 8    -- Numeric Data Enclosed
  | 0x86 => some 4    -- Auto Entered Sleep Mode
  | 0x87 => some 4    -- Auto Wake from Sleep
  | 0x88 => some 4    -- Nextion Ready
  | 0x89 => some 4    -- Start microSD Upgrade
  | 0xFD => some 4    -- Transparent Data Finished
  | 0xFE => some 4    -- Transparent Data Ready
  | _ => none

/-- `bytes.partition(EOL)`: split a byte string at the first occurrence of
the terminator.  `some (pre, post)` when the terminator occurs, with
`pre ++ EOL ++ post` the original string and `pre` terminator-free up to
that point; `none` when it does not occur. -/
def splitAtEOL : List Nat → Option (List Nat × List Nat)
  | [] => none
  | b :: rest =>
    if (b :: rest).take 3 = EOL then some ([], (b :: rest).drop 3)
    else
      match splitAtEOL rest with
      | none => none
      | some (pre, post) => some (b :: pre, post)

/-- `EventType.__members__.values()`: the set of event tags. -/
def eventTags : List Nat := [0x65, 0x67, 0x68, 0x86, 0x87, 0x88, 0x89]

/-- `NextionProtocol.is_event`: a message is an event iff it is nonempty
and its leading byte is an event tag. -/
def is_event (message : List Nat) : Bool :=
  match message with
  | [] => false
  | b :: _ => eventTags.contains b

/-- One call of `NextionProtocol._extract_packet` (together with the
mutually recursive `_extract_fixed_length_packet` and
`_extract_varied_length_packet`), with explicit fuel bounding the
recursion depth.  Input and output are the pair (buffer, dropped_buffer);
the first component of the result is the extracted message, if any. -/
def extractPacketF : Nat → List Nat → List Nat → Option (List Nat) × List Nat × List Nat
  | 0, buf, dropped => (none, buf, dropped)
  | fuel + 1, buf, dropped =>
    if buf.length < 3 then (none, buf, dropped)
    else
      match packetLengthMap (buf.headD 0) with
      | none =>
        -- variable-length path
        match splitAtEOL buf with
        | none => (none, buf, dropped)
        | some (message, leftover) => (some message, leftover, dropped)
      | some plen =>
        -- fixed-length path
        if buf.length < plen then (none, buf, dropped)
        else
          if (buf.take plen).drop (plen - 3) = EOL then
            (some ((buf.take plen).take (plen - 3)), buf.drop plen, dropped)
          else
            -- false-positive tag match: fall back to the variable path
            match splitAtEOL buf with
            | none => (none, buf, dropped)
            | some (message, leftover) =>
              extractPacketF fuel leftover (dropped ++ message ++ EOL)

/-- `NextionProtocol._extract_packet`: the recursion depth is bounded by
the buffer length (each fallback step consumes at least four bytes), so
fuel `buf.length` is always sufficient (`extractPacketF_fuel_irrel`). -/
def extract_packet (buf dropped : List Nat) : Option (List Nat) × List Nat × List Nat :=
  extractPacketF buf.length buf dropped

/-- A delivered message: handed to the event handler, or enqueued on the
reply queue. -/
inductive Delivery where
  | event (msg : List Nat)
  | reply (msg : List Nat)
deriving DecidableEq, Repr

/-- The `while True` loop of `NextionProtocol.data_received`, with fuel.
Returns the final (buffer, dropped_buffer) and the ordered list of
deliveries.  On each accepted message the dropped buffer is flushed
(`_reset_dropped_buffer`), so the recursive call starts from `[]`. -/
def dataLoopF : Nat → List Nat → List Nat → List Nat × List Nat × List Delivery
  | 0, buf, dropped => (buf, dropped, [])
  | fuel + 1, buf, dropped =>
    match extract_packet buf dropped with
    | (none, buf', dropped') => (buf', dropped', [])
    | (some m, buf', _) =>
      let rest := dataLoopF fuel buf' []
      (rest.1, rest.2.1,
        (if is_event m then Delivery.event m else Delivery.reply m) :: rest.2.2)

/-- `NextionProtocol.data_received` on one chunk: append the chunk to the
buffer and run the extraction loop.  Each accepted message removes at
least three bytes from the buffer, so fuel `buffer.length` suffices
(`dataLoopF_fuel_irrel`). -/
def data_received (buf dropped data : List Nat) : List Nat × List Nat × List Delivery :=
  dataLoopF (buf ++ data).length (buf ++ data) dropped

/-- The extraction loop run at its canonical fuel
(`data_received buf d data = dataRun (buf ++ data) d` definitionally). -/
def dataRun (buf dropped : List Nat) : List Nat × List Nat × List Delivery :=
  dataLoopF buf.length buf dropped

/-- Successive `data_received` calls from a given (buffer, dropped) state,
concatenating the delivered messages in order. -/
def feedChunks : List Nat → List Nat → List (List Nat) → List Nat × List Nat × List Delivery
  | buf, dropped, [] => (buf, dropped, [])
  | buf, dropped, chunk :: rest =>
    let r := data_received buf dropped chunk
    let r' := feedChunks r.1 r.2.1 rest
    (r'.1, r'.2.1, r.2.2 ++ r'.2.2)

/-! ## Event decoding (`nextion/client.py`, `Nextion._handle_event`) -/

/-- `TouchDataPayload`: `struct.unpack("BBB", message[1:])`. -/
structure TouchDataPayload where
  page_id : Nat
  component_id : Nat
  touch_event : Nat
deriving DecidableEq, Repr

/-- `TouchCoordinateDataPayload`: `struct.unpack("HHB", message[1:])`
(16-bit fields little-endian). -/
structure TouchCoordinateDataPayload where
  x : Nat
  y : Nat
  touch_event : Nat
deriving DecidableEq, Repr

/-- A decoded event as dispatched to the event handler. -/
inductive HandledEvent where
  | touch (p : TouchDataPayload)
  | touchCoordinate (p : TouchCoordinateDataPayload)
  | touchInSleep (p : TouchCoordinateDataPayload)
  | autoSleep
  | autoWake
  | startup
  | sdCardUpgrade
deriving DecidableEq, Repr

/-- The decode aspect of `Nextion._handle_event`: the typed payload passed
to the scheduled event handler.  `none` models the paths on which no
handler call with a decoded payload happens (unknown leading byte, or a
`struct.unpack` size error).  The sleep-flag side effects of the
`AUTO_SLEEP`/`AUTO_WAKE` branches are modelled separately by the
power-state functions below. -/
def handle_event : List Nat → Option HandledEvent
  | [0x65, a, b, c] => some (.touch ⟨a, b, c⟩)
  | [0x67, x0, x1, y0, y1, e] => some (.touchCoordinate ⟨x0 + 256 * x1, y0 + 256 * y1, e⟩)
  | [0x68, x0, x1, y0, y1, e] => some (.touchInSleep ⟨x0 + 256 * x1, y0 + 256 * y1, e⟩)
  | [0x86] => some .autoSleep
  | [0x87] => some .autoWake
  | [0x88] => some .startup
  | [0x89] => some .sdCardUpgrade
  | _ => none

/-! ## Wire writes (`NextionProtocol.write`, `BasicProtocol.write`) -/

/-- The bytes `NextionProtocol.write(data, eol)` hands to the transport.
The source line is `self.transport.write(data + self.EOL if eol else b"")`,
which Python parses as `(data + self.EOL) if eol else b""`. -/
def nextionWrite (data : List Nat) (eol : Bool) : List Nat :=
  if eol then data ++ EOL else []

/-- The bytes `BasicProtocol.write(data, eol)` hands to the transport:
always exactly `data` (the `eol` parameter is ignored). -/
def basicWrite (data : List Nat) (eol : Bool) : List Nat :=
  data

/-! ## Command failure table (`nextion/exceptions.py`) -/

/-- `command_failed_codes`. -/
def command_failed_codes : Nat → Option String
  | 0x00 => some "Invalid instruction"
  | 0x02 => some "Component ID invalid"
  | 0x03 => some "Page ID invalid"
  | 0x04 => some "Picture ID invalid"
  | 0x05 => some "Font ID invalid"
  | 0x11 => some "Baud rate setting invalid"
  | 0x12 => some "Curve control ID number or channel number is invalid"
  | 0x1A => some "Variable name invalid"
  | 0x1B => some "Variable operation invalid"
  | 0x1C => some "Failed to assign"
  | 0x1D => some "Operate EEPROM failed"
  | 0x1E => some "Parameter quantity invalid"
  | 0x1F => some "IO operation failed"
  | 0x20 => some "Undefined escape characters"
  | 0x23 => some "Too long variable name"
  | _ => none

/-- One hexadecimal digit. -/
def hexDigit (n : Nat) : Char :=
  if n < 10 then Char.ofNat (48 + n) else Char.ofNat (87 + n)

/-- Python `"%02x" % code` for a byte. -/
def hex2 (code : Nat) : String :=
  String.mk [hexDigit (code / 16 % 16), hexDigit (code % 16)]

/-- The message `CommandFailed.__init__` builds for a command and a
response code. -/
def commandFailedMsg (cmd : String) (code : Nat) : String :=
  match command_failed_codes code with
  | some m => m ++ " for command: " ++ cmd
  | none => "Unknown response code 0x" ++ hex2 code ++ " for command: '" ++ cmd ++ "'"

/-! ## Command executor (`Nextion._command`) -/

/-- `struct.unpack("i", raw)[0]`: a signed little-endian 32-bit integer
from four bytes. -/
def i32le (raw : List Nat) : Int :=
  let u := (raw.headD 0 + 256 * ((raw.drop 1).headD 0) + 65536 * ((raw.drop 2).headD 0)
    + 16777216 * ((raw.drop 3).headD 0)) % 4294967296
  if u < 2147483648 then (u : Int) else (u : Int) - 4294967296

/-- `command.partition(" ")[0]`: the text before the first space (the
whole string when it has no space). -/
def firstWord (cmd : String) : String :=
  String.mk (cmd.toList.takeWhile (fun ch => ch ≠ ' '))

/-- The result of one `_read_packet` call: a frame from the queue, or
`asyncio.TimeoutError`. -/
inductive ReadResult where
  | frame (msg : List Nat)
  | timeout
deriving DecidableEq, Repr

/-- The environment a `_command` run interacts with: the outcome of the
i-th read call and of the i-th `reconnect()` call (`true` = success,
`false` = `ConnectionFailed`).  The non-blocking stale-frame flush
(`_flush_read_buffer`) is not observable in this model: the read stream
is the sequence of frames the queue hands out. -/
structure CmdEnv where
  reads : Nat → ReadResult
  reconnects : Nat → Bool

/-- `data` inside the reply loop: Python `int` or `str` values. -/
inductive PyVal where
  | int (n : Int)
  | str (s : List Nat)
deriving DecidableEq, Repr

/-- The value `_command` returns: `data if data is not None else result`. -/
inductive RetVal where
  | int (n : Int)
  | str (s : List Nat)
  | bool (b : Bool)
  | pynone
deriving DecidableEq, Repr

/-- `return data if data is not None else result`. -/
def mkRet (data : Option PyVal) (result : Option Bool) : RetVal :=
  match data with
  | some (.int n) => .int n
  | some (.str s) => .str s
  | none =>
    match result with
    | some b => .bool b
    | none => .pynone

/-- Outcome of the inner reply-reading loop of `_command`. -/
inductive InnerRes where
  | done (ri : Nat) (ret : RetVal)
  | timedOut (ri : Nat)
  | failed (ri : Nat) (code : Nat)
  | structError (ri : Nat)
  | fuelOut (ri : Nat)
deriving DecidableEq, Repr

/-- The `while not finished` reply loop of `_command`, reading packets at
index `ri` of the environment's read stream.  `w` is
`command.partition(" ")[0]`.  The loop is not a priori terminating (the
device could keep sending data frames), hence the fuel; `fuelOut` marks
fuel exhaustion and is excluded by hypothesis where needed. -/
def innerLoop (w : String) (env : CmdEnv) : Nat → Nat → Option Bool → Option PyVal → InnerRes
  | 0, ri, _, _ => .fuelOut ri
  | fuel + 1, ri, result, data =>
    match env.reads ri with
    | .timeout => .timedOut (ri + 1)
    | .frame msg =>
      if msg.length = 0 then
        .done (ri + 1) (mkRet data (if result = none then some true else result))
      else if msg.length = 1 then
        if msg.headD 0 = 0x01 then .done (ri + 1) (mkRet data (some true))
        else .failed (ri + 1) (msg.headD 0)
      else
        let raw := msg.drop 1
        if msg.headD 0 = 0x71 ∧ raw.length ≠ 4 then .structError (ri + 1)
        else
          let data' :=
            if msg.headD 0 = 0x66 then some (.int (raw.headD 0))
            else if msg.headD 0 = 0x70 then some (.str raw)
            else if msg.headD 0 = 0x71 then some (.int (i32le raw))
            else data
          if w = "get" ∨ w = "sendme" then .done (ri + 1) (mkRet data' result)
          else innerLoop w env fuel (ri + 1) result data'

/-- Outcome of a `_command` run. -/
inductive CmdOutcome where
  | ret (v : RetVal)
  | cmdFailed (code : Nat)
  | cmdTimeout
  | structError
  | fuelOut
deriving DecidableEq, Repr

/-- The `while attempts_remained > 0` retry loop of `_command`.
State: remaining attempts, read index `ri`, reconnect index `ci`,
`lastT` = "last_exception is a CommandTimeout", and the number of
commands written so far `w` (observing `_write_command_raw` calls).
On a timeout in the reply loop the attempt ends; the next iteration
reconnects first, and a failed reconnect sleeps one second and
`continue`s.  When the loop exits, the recorded `CommandTimeout` is
re-raised if there is one, else `None` is returned. -/
def commandLoop (cmd : String) (env : CmdEnv) (fuel : Nat) :
    Nat → Nat → Nat → Bool → Nat → CmdOutcome × Nat
  | 0, _, _, lastT, w => ((if lastT then .cmdTimeout else .ret .pynone), w)
  | n + 1, ri, ci, lastT, w =>
    if lastT ∧ env.reconnects ci = false then
      commandLoop cmd env fuel n ri (ci + 1) true w
    else
      match innerLoop (firstWord cmd) env fuel ri none none with
      | .done _ ret => (.ret ret, w + 1)
      | .failed _ code => (.cmdFailed code, w + 1)
      | .structError _ => (.structError, w + 1)
      | .fuelOut _ => (.fuelOut, w + 1)
      | .timedOut ri' => commandLoop cmd env fuel n ri' (if lastT then ci + 1 else ci) true (w + 1)

/-- A `_command(cmd, attempts)` run against an environment: outcome and
number of command writes. -/
def commandRun (cmd : String) (env : CmdEnv) (attempts : Nat) (fuel : Nat) :
    CmdOutcome × Nat :=
  commandLoop cmd env fuel attempts 0 0 false 0

/-! ## Power-state coordinator (`Nextion.set`, `Nextion.wakeup`) -/

/-- A Python value passed to `Nextion.set`: the supported types `str`,
`float`, `int`, and representatives of unsupported types (`None`, `list`)
for which `set` raises `TypeError`.  A float is carried by its `str(value)`
rendering, which is all `set` uses of it. -/
inductive PyObj where
  | pstr (s : String)
  | pfloat (repr : String)
  | pint (n : Int)
  | pnone
  | plist
deriving DecidableEq, Repr

/-- The `out_value` formatting at the top of `Nextion.set`: quoted text for
`str`, quoted text for `float` (with a logged warning), bare digits for
`int`; `none` models the `TypeError` raised for any other type. -/
def formatValue : PyObj → Option String
  | .pstr s => some ("\"" ++ s ++ "\"")
  | .pfloat r => some ("\"" ++ r ++ "\"")
  | .pint n => some (toString n)
  | .pnone => none
  | .plist => none

/-- The client state the power-state coordinator touches: the `_sleeping`
flag and the `_pending_sets` map (an insertion-ordered key-value list, as
a Python dict). -/
structure ClientState where
  sleeping : Bool
  pending : List (String × PyObj)
deriving DecidableEq, Repr

/-- `self._pending_sets[key] = value`: overwrite in place, or append. -/
def updatePending (m : List (String × PyObj)) (k : String) (v : PyObj) :
    List (String × PyObj) :=
  if m.any (fun p => p.1 = k) then
    m.map (fun p => if p.1 = k then (k, v) else p)
  else m ++ [(k, v)]

/-- `Nextion.set(key, value)`.  Result: `.error ()` when `TypeError` is
raised, `.ok none` when the device sleeps and the set is deferred
(Python returns `None` and writes nothing), `.ok (some cmd)` when the
command `cmd` is issued; paired with the resulting client state. -/
def set (st : ClientState) (key : String) (value : PyObj) :
    Except Unit (Option String) × ClientState :=
  match formatValue value with
  | none => (.error (), st)
  | some out =>
    if st.sleeping ∧ key ≠ "sleep" then
      (.ok none, { st with pending := updatePending st.pending key value })
    else
      (.ok (some (key ++ "=" ++ out)), st)

/-- `Nextion._on_wakeup`: schedule `set(k, v)` for every pending entry,
clear the map, clear the sleep flag.  The scheduled tasks run after the
synchronous part, i.e. against the already awake, already cleared state,
so each issues its command; the issued commands are returned in map
order. -/
def on_wakeup (st : ClientState) : ClientState × List String :=
  let st' : ClientState := { sleeping := false, pending := [] }
  (st', st.pending.filterMap (fun p =>
    match set st' p.1 p.2 with
    | (.ok (some cmd), _) => some cmd
    | _ => none))

/-- `Nextion.wakeup()`: no-op when awake; otherwise issue `sleep=0`
(through `set`, which does not defer the sleep key) and run
`_on_wakeup`.  Returns the final state and all issued commands. -/
def wakeup (st : ClientState) : ClientState × List String :=
  if st.sleeping = false then (st, [])
  else
    ((on_wakeup st).1, "sleep=0" :: (on_wakeup st).2)

/-! ## Connect scan (`Nextion._try_connect_on_different_baudrates`) -/

/-- What `_connect_at_baud(baud)` does for one candidate, as seen by the
scan loop: success, or one of its failure modes.  `deviceAbsent` is
`OSError errno 2` (re-raised as `ConnectionFailed("Failed to open serial
connection")`), `baudUnsupported` is any other `OSError` (re-raised as
`UnsupportedBaudRate`), `noValidReply` is a handshake with no valid
reply (`NoValidReply`). -/
inductive AttemptOutcome where
  | ok
  | deviceAbsent
  | baudUnsupported
  | noValidReply
deriving DecidableEq, Repr

/-- The exception classes the scan can see. -/
inductive ConnExc where
  | connectionFailed (msg : String)
  | unsupportedBaudRate
  | noValidReply
deriving DecidableEq, Repr

/-- The exception `_connect_at_baud` raises for each failing outcome. -/
def excOf : AttemptOutcome → Option ConnExc
  | .ok => none
  | .deviceAbsent => some (.connectionFailed "Failed to open serial connection")
  | .baudUnsupported => some .unsupportedBaudRate
  | .noValidReply => some .noValidReply

/-- Modelled from the spec: whether an exception is caught by the scan's
`except ConnectionFailed` clause.  The subclass declarations of
`UnsupportedBaudRate` and `NoValidReply` are not part of the sources
here (`exceptions.py` lacks them); the spec's error taxonomy makes
`UnsupportedBaudRate` recoverable ("try next candidate"), hence caught,
and `NoValidReply` non-recoverable, hence not caught. -/
def caughtByScan : ConnExc → Bool
  | .connectionFailed _ => true
  | .unsupportedBaudRate => true
  | .noValidReply => false

/-- Result of the scan over the candidate list. -/
inductive ScanResult where
  | connected (baud : Nat)
  | raised (e : ConnExc)
deriving DecidableEq, Repr

/-- `_try_connect_on_different_baudrates`: try each candidate in order;
a caught failure advances to the next candidate, an uncaught one
propagates; exhaustion raises `ConnectionFailed("No baud rate suited")`. -/
def scanBauds (env : Nat → AttemptOutcome) : List Nat → ScanResult
  | [] => .raised (.connectionFailed "No baud rate suited")
  | baud :: rest =>
    match excOf (env baud) with
    | none => .connected baud
    | some e => if caughtByScan e then scanBauds env rest else .raised e

/-- The number of successful reconnects among `n` consecutive reconnect
attempts starting at index `start` of the environment's reconnect stream. -/
def countRec (rec : Nat → Bool) (start : Nat) : Nat → Nat
  | 0 => 0
  | n + 1 => (if rec start then 1 else 0) + countRec rec (start + 1) n

/-! ### Facts about `splitAtEOL` -/

theorem splitAtEOL_eq {l m r : List Nat} (h : splitAtEOL l = some (m, r)) :
    l = m ++ EOL ++ r := by
  induction l generalizing m r with
  | nil => simp [splitAtEOL] at h
  | cons b rest ih =>
    rw [splitAtEOL] at h
    split at h
    · rename_i htake
      rcases Option.some_injective _ h with ⟨rfl, rfl⟩
      conv_lhs => rw [← List.take_append_drop 3 (b :: rest)]
      rw [htake]
      simp
    · rename_i htake
      cases hs : splitAtEOL rest with
      | none => rw [hs] at h; exact absurd h (by simp)
      | some pq =>
        obtain ⟨pre, post⟩ := pq
        rw [hs] at h
        rcases Option.some_injective _ h with ⟨rfl, rfl⟩
        simpa using ih hs

theorem splitAtEOL_length_lt {l m r : List Nat} (h : splitAtEOL l = some (m, r)) :
    r.length + 3 ≤ l.length := by
  have := splitAtEOL_eq h
  subst this
  simp [EOL]

theorem splitAtEOL_append {l m r : List Nat} (ext : List Nat)
    (h : splitAtEOL l = some (m, r)) :
    splitAtEOL (l ++ ext) = some (m, r ++ ext) := by
  induction l generalizing m r with
  | nil => simp [splitAtEOL] at h
  | cons b rest ih =>
    rw [splitAtEOL] at h
    rw [List.cons_append, splitAtEOL, ← List.cons_append]
    split at h
    · rename_i htake
      rcases Option.some_injective _ h with ⟨rfl, rfl⟩
      have hlen : 3 ≤ (b :: rest).length := by
        have h3 : ((b :: rest).take 3).length = 3 := by rw [htake]; rfl
        rw [List.length_take] at h3
        omega
      rw [List.take_append_of_le_length hlen, List.drop_append_of_le_length hlen]
      rw [if_pos htake]
    · rename_i htake
      cases hs : splitAtEOL rest with
      | none => rw [hs] at h; exact absurd h (by simp)
      | some pq =>
        obtain ⟨pre, post⟩ := pq
        rw [hs] at h
        rcases Option.some_injective _ h with ⟨rfl, rfl⟩
        have hlen : 3 ≤ (b :: rest).length := by
          have := splitAtEOL_length_lt hs
          simp only [List.length_cons]
          omega
        rw [List.take_append_of_le_length hlen, if_neg htake, ih hs]

/-! ### Facts about packet extraction -/

theorem packetLengthMap_ge {b p : Nat} (h : packetLengthMap b = some p) : 4 ≤ p := by
  unfold packetLengthMap at h
  split at h <;> simp_all <;> omega

/-- A successful extraction removes at least three bytes from the buffer
(every accepted frame carries its three-byte terminator). -/
theorem extractPacketF_some_shrink {f : Nat} :
    ∀ {buf d m b' d'}, extractPacketF f buf d = (some m, b', d') ->
      b'.length + 3 ≤ buf.length := by
  induction f with
  | zero => intro buf d m b' d' h; simp [extractPacketF] at h
  | succ f ih =>
    intro buf d m b' d' h
    rw [extractPacketF] at h
    split at h
    · simp at h
    · split at h
      · split at h
        · simp at h
        · rename_i hs
          simp only [Prod.mk.injEq, Option.some.injEq] at h
          obtain ⟨-, rfl, -⟩ := h
          exact splitAtEOL_length_lt hs
      · rename_i hplen
        split at h
        · simp at h
        · rename_i hge
          split at h
          · simp only [Prod.mk.injEq, Option.some.injEq] at h
            obtain ⟨-, rfl, -⟩ := h
            have h4 := packetLengthMap_ge hplen
            simp only [List.length_drop]
            omega
          · split at h
            · simp at h
            · rename_i hs
              have h1 := ih h
              have h2 := splitAtEOL_length_lt hs
              omega

/-- Fuel at least the buffer length is always enough for `extractPacketF`:
any two sufficient fuels give the same result. -/
theorem extractPacketF_fuel_irrel :
    ∀ {f g : Nat} {buf d : List Nat}, buf.length ≤ f → buf.length ≤ g →
      extractPacketF f buf d = extractPacketF g buf d := by
  intro f
  induction f with
  | zero =>
    intro g buf d hf hg
    have hb : buf = [] := List.length_eq_zero.mp (Nat.le_zero.mp hf)
    subst hb
    cases g with
    | zero => rfl
    | succ g => simp [extractPacketF]
  | succ f ih =>
    intro g buf d hf hg
    cases g with
    | zero =>
      have hb : buf = [] := List.length_eq_zero.mp (Nat.le_zero.mp hg)
      subst hb
      simp [extractPacketF]
    | succ g =>
      simp only [extractPacketF]
      by_cases h3 : buf.length < 3
      · simp only [if_pos h3]
      · simp only [if_neg h3]
        cases hm : packetLengthMap (buf.headD 0) with
        | none => rfl
        | some plen =>
          dsimp only
          by_cases hlt : buf.length < plen
          · simp only [if_pos hlt]
          · simp only [if_neg hlt]
            by_cases hend : (buf.take plen).drop (plen - 3) = EOL
            · simp only [if_pos hend]
            · simp only [if_neg hend]
              cases hs : splitAtEOL buf with
              | none => rfl
              | some pr =>
                obtain ⟨message, leftover⟩ := pr
                dsimp only
                have hlen := splitAtEOL_length_lt hs
                exact ih (by omega) (by omega)

/-- Unfold `extract_packet` by one step with an explicit `succ` fuel. -/
theorem extract_packet_eq_succ (buf d : List Nat) :
    extract_packet buf d = extractPacketF (buf.length + 1) buf d :=
  extractPacketF_fuel_irrel (Nat.le_refl _) (Nat.le_succ _)

theorem headD_append {buf ext : List Nat} (h : buf ≠ []) :
    (buf ++ ext).headD 0 = buf.headD 0 := by
  cases buf with
  | nil => exact absurd rfl h
  | cons a l => rfl

/-- The single-step fallback equation of `_extract_fixed_length_packet`:
under a false-positive fixed-length tag match, extraction appends the
variable-split prefix (with its terminator) to the dropped buffer and
retries on the remainder. -/
theorem extract_packet_fallback_step {X dx : List Nat} {plen : Nat} {msg leftover : List Nat}
    (h3 : ¬ X.length < 3) (hm : packetLengthMap (X.headD 0) = some plen)
    (hlt : ¬ X.length < plen) (hend : (X.take plen).drop (plen - 3) ≠ EOL)
    (hs : splitAtEOL X = some (msg, leftover)) :
    extract_packet X dx = extract_packet leftover (dx ++ msg ++ EOL) := by
  rw [extract_packet_eq_succ, extractPacketF]
  rw [if_neg h3, hm]
  dsimp only
  rw [if_neg hlt, if_neg hend, hs]
  dsimp only
  have hlen := splitAtEOL_length_lt hs
  exact extractPacketF_fuel_irrel (by omega) (Nat.le_refl _)

/-- Appending further bytes to the buffer does not change a successful
extraction: the same message comes out and the new bytes stay in the
remainder. -/
theorem extractPacketF_append_some :
    ∀ {f : Nat} {buf d m b' d' : List Nat} (ext : List Nat),
      extractPacketF f buf d = (some m, b', d') →
      extractPacketF f (buf ++ ext) d = (some m, b' ++ ext, d') := by
  intro f
  induction f with
  | zero => intro buf d m b' d' ext h; simp [extractPacketF] at h
  | succ f ih =>
    intro buf d m b' d' ext h
    rw [extractPacketF] at h
    rw [extractPacketF]
    split at h
    · simp at h
    · rename_i h3
      have hne : buf ≠ [] := by
        intro hb; rw [hb] at h3; simp at h3
      have hlen3 : ¬ (buf ++ ext).length < 3 := by
        simp only [List.length_append]
        omega
      rw [if_neg hlen3, headD_append hne]
      split at h
      · rename_i hm
        split at h
        · simp at h
        · rename_i hs
          simp only [Prod.mk.injEq, Option.some.injEq] at h
          obtain ⟨rfl, rfl, rfl⟩ := h
          rw [splitAtEOL_append ext hs]
      · rename_i plen hm
        split at h
        · simp at h
        · rename_i hlt
          have hlt' : ¬ (buf ++ ext).length < plen := by
            simp only [List.length_append]
            omega
          rw [if_neg hlt']
          have hple : plen ≤ buf.length := by omega
          rw [List.take_append_of_le_length hple]
          split at h
          · rename_i hend
            rw [if_pos hend]
            simp only [Prod.mk.injEq, Option.some.injEq] at h
            obtain ⟨rfl, rfl, rfl⟩ := h
            rw [List.drop_append_of_le_length hple]
          · rename_i hend
            rw [if_neg hend]
            split at h
            · simp at h
            · rename_i hs
              rw [splitAtEOL_append ext hs]
              dsimp only
              exact ih ext h

/-- Appending further bytes to the buffer commutes with a failed
extraction: whatever partial consumption the failed attempt performed
would also be performed with the extra bytes present, so extraction on
the extended buffer restarts from the final state of the failed attempt. -/
theorem extractPacketF_append_none :
    ∀ {f : Nat} {buf d b' d' : List Nat} (ext : List Nat), buf.length ≤ f →
      extractPacketF f buf d = (none, b', d') →
      extract_packet (buf ++ ext) d = extract_packet (b' ++ ext) d' := by
  intro f
  induction f with
  | zero =>
    intro buf d b' d' ext hf h
    have hb : buf = [] := List.length_eq_zero.mp (Nat.le_zero.mp hf)
    subst hb
    simp only [extractPacketF, Prod.mk.injEq] at h
    obtain ⟨rfl, rfl⟩ := h.2
    rfl
  | succ f ih =>
    intro buf d b' d' ext hf h
    rw [extractPacketF] at h
    split at h
    · simp only [Prod.mk.injEq] at h
      obtain ⟨rfl, rfl⟩ := h.2
      rfl
    · rename_i h3
      split at h
      · rename_i hm
        split at h
        · simp only [Prod.mk.injEq] at h
          obtain ⟨rfl, rfl⟩ := h.2
          rfl
        · simp at h
      · rename_i plen hm
        split at h
        · simp only [Prod.mk.injEq] at h
          obtain ⟨rfl, rfl⟩ := h.2
          rfl
        · rename_i hlt
          split at h
          · simp at h
          · rename_i hend
            split at h
            · simp only [Prod.mk.injEq] at h
              obtain ⟨rfl, rfl⟩ := h.2
              rfl
            · rename_i msg left hs
              have hlen := splitAtEOL_length_lt hs
              have hne : buf ≠ [] := by
                intro hb; rw [hb] at h3; simp at h3
              have c1 : ¬ (buf ++ ext).length < 3 := by
                simp only [List.length_append]; omega
              have c2 : packetLengthMap ((buf ++ ext).headD 0) = some plen := by
                rw [headD_append hne]; exact hm
              have c3 : ¬ (buf ++ ext).length < plen := by
                simp only [List.length_append]; omega
              have hple : plen ≤ buf.length := by omega
              have c4 : ((buf ++ ext).take plen).drop (plen - 3) ≠ EOL := by
                rw [List.take_append_of_le_length hple]; exact hend
              have c5 : splitAtEOL (buf ++ ext) = some (msg, left ++ ext) :=
                splitAtEOL_append ext hs
              rw [extract_packet_fallback_step c1 c2 c3 c4 c5]
              exact ih ext (by omega) h

/-- A successful extraction is stable under extra fuel. -/
theorem extractPacketF_mono_some :
    ∀ {f g : Nat} {buf d m b' d' : List Nat}, f ≤ g →
      extractPacketF f buf d = (some m, b', d') →
      extractPacketF g buf d = (some m, b', d') := by
  intro f
  induction f with
  | zero => intro g buf d m b' d' hfg h; simp [extractPacketF] at h
  | succ f ih =>
    intro g buf d m b' d' hfg h
    cases g with
    | zero => omega
    | succ g =>
      rw [extractPacketF] at h
      rw [extractPacketF]
      split at h
      · simp at h
      · rename_i h3
        rw [if_neg h3]
        split at h
        · split at h
          · simp at h
          · exact h
        · split at h
          · simp at h
          · rename_i hlt
            rw [if_neg hlt]
            split at h
            · rename_i hend
              rw [if_pos hend]
              exact h
            · rename_i hend
              rw [if_neg hend]
              split at h
              · simp at h
              · exact ih (by omega) h

/-- A failed extraction leaves a state from which extraction fails again
without further change (the loop's exit state is a fixpoint). -/
theorem extractPacketF_none_fix :
    ∀ {f : Nat} {buf d b' d' : List Nat}, buf.length ≤ f →
      extractPacketF f buf d = (none, b', d') →
      extract_packet b' d' = (none, b', d') := by
  intro f
  induction f with
  | zero =>
    intro buf d b' d' hf h
    have hb : buf = [] := List.length_eq_zero.mp (Nat.le_zero.mp hf)
    subst hb
    simp only [extractPacketF, Prod.mk.injEq] at h
    obtain ⟨rfl, rfl⟩ := h.2
    rfl
  | succ f ih =>
    intro buf d b' d' hf h
    rw [extractPacketF] at h
    split at h
    · rename_i h3
      simp only [Prod.mk.injEq] at h
      obtain ⟨rfl, rfl⟩ := h.2
      rw [extract_packet_eq_succ, extractPacketF, if_pos h3]
    · rename_i h3
      split at h
      · rename_i hm
        split at h
        · rename_i hs
          simp only [Prod.mk.injEq] at h
          obtain ⟨rfl, rfl⟩ := h.2
          rw [extract_packet_eq_succ, extractPacketF, if_neg h3, hm]
          dsimp only
          rw [hs]
        · simp at h
      · rename_i plen hm
        split at h
        · rename_i hlt
          simp only [Prod.mk.injEq] at h
          obtain ⟨rfl, rfl⟩ := h.2
          rw [extract_packet_eq_succ, extractPacketF, if_neg h3, hm]
          dsimp only
          rw [if_pos hlt]
        · rename_i hlt
          split at h
          · simp at h
          · rename_i hend
            split at h
            · rename_i hs
              simp only [Prod.mk.injEq] at h
              obtain ⟨rfl, rfl⟩ := h.2
              rw [extract_packet_eq_succ, extractPacketF, if_neg h3, hm]
              dsimp only
              rw [if_neg hlt, if_neg hend, hs]
            · rename_i msg left hs
              have hlen := splitAtEOL_length_lt hs
              exact ih (by omega) h

/-- Fuel at least the buffer length is always enough for the
`data_received` extraction loop. -/
theorem dataLoopF_fuel_irrel :
    ∀ {f g : Nat} {buf d : List Nat}, buf.length ≤ f → buf.length ≤ g →
      dataLoopF f buf d = dataLoopF g buf d := by
  intro f
  induction f with
  | zero =>
    intro g buf d hf hg
    have hb : buf = [] := List.length_eq_zero.mp (Nat.le_zero.mp hf)
    subst hb
    cases g with
    | zero => rfl
    | succ g => simp [dataLoopF, extract_packet, extractPacketF]
  | succ f ih =>
    intro g buf d hf hg
    cases g with
    | zero =>
      have hb : buf = [] := List.length_eq_zero.mp (Nat.le_zero.mp hg)
      subst hb
      simp [dataLoopF, extract_packet, extractPacketF]
    | succ g =>
      rw [dataLoopF, dataLoopF]
      cases he : extract_packet buf d with
      | mk o rest =>
        obtain ⟨b2, d2⟩ := rest
        cases o with
        | none => rfl
        | some m =>
          have hshrink := extractPacketF_some_shrink he
          dsimp only
          rw [@ih g b2 [] (by omega) (by omega)]

theorem data_received_eq (buf dropped data : List Nat) :
    data_received buf dropped data = dataRun (buf ++ data) dropped := rfl

theorem dataRun_eq_succ (buf d : List Nat) :
    dataRun buf d = dataLoopF (buf.length + 1) buf d :=
  dataLoopF_fuel_irrel (Nat.le_refl _) (Nat.le_succ _)

/-- The extraction loop is determined by the first extraction's result. -/
theorem dataRun_congr {X dx Y dy : List Nat}
    (h : extract_packet X dx = extract_packet Y dy) :
    dataRun X dx = dataRun Y dy := by
  rw [dataRun_eq_succ, dataRun_eq_succ, dataLoopF, dataLoopF]
  cases he : extract_packet Y dy with
  | mk o rest =>
    obtain ⟨b2, d2⟩ := rest
    rw [he] at h
    rw [h]
    cases o with
    | none => rfl
    | some m =>
      dsimp only
      have s1 := extractPacketF_some_shrink h
      have s2 := extractPacketF_some_shrink he
      rw [@dataLoopF_fuel_irrel X.length Y.length b2 [] (by omega) (by omega)]

/-- After the extraction loop exits, the remaining state is a fixpoint of
extraction: the loop stopped because no further packet can be extracted. -/
theorem dataLoopF_final_quiescent :
    ∀ {f : Nat} {buf d bf df : List Nat} {ds : List Delivery}, buf.length ≤ f →
      dataLoopF f buf d = (bf, df, ds) →
      extract_packet bf df = (none, bf, df) := by
  intro f
  induction f with
  | zero =>
    intro buf d bf df ds hf h
    have hb : buf = [] := List.length_eq_zero.mp (Nat.le_zero.mp hf)
    subst hb
    simp only [dataLoopF, Prod.mk.injEq] at h
    obtain ⟨rfl, rfl, -⟩ := h
    rfl
  | succ f ih =>
    intro buf d bf df ds hf h
    rw [dataLoopF] at h
    cases he : extract_packet buf d with
    | mk o rest =>
      obtain ⟨b2, d2⟩ := rest
      rw [he] at h
      cases o with
      | none =>
        simp only [Prod.mk.injEq] at h
        obtain ⟨rfl, rfl, -⟩ := h
        exact extractPacketF_none_fix (Nat.le_refl _) he
      | some m =>
        dsimp only at h
        have hshrink := extractPacketF_some_shrink he
        have hr : dataLoopF f b2 [] =
            ((dataLoopF f b2 []).1, (dataLoopF f b2 []).2.1, (dataLoopF f b2 []).2.2) := rfl
        simp only [Prod.mk.injEq] at h
        obtain ⟨h1, h2, -⟩ := h
        exact ih (by omega) (show dataLoopF f b2 [] = (bf, df, (dataLoopF f b2 []).2.2) by
          rw [← h1, ← h2])

/-- Processing `buf ++ ext` is processing `buf` and then processing `ext`
appended to the final buffer, with the delivered messages concatenated. -/
theorem dataRun_append :
    ∀ {f : Nat} {buf d : List Nat} (ext : List Nat), buf.length ≤ f →
      dataRun (buf ++ ext) d =
        ((dataRun ((dataLoopF f buf d).1 ++ ext) (dataLoopF f buf d).2.1).1,
         (dataRun ((dataLoopF f buf d).1 ++ ext) (dataLoopF f buf d).2.1).2.1,
         (dataLoopF f buf d).2.2 ++
           (dataRun ((dataLoopF f buf d).1 ++ ext) (dataLoopF f buf d).2.1).2.2) := by
  intro f
  induction f with
  | zero =>
    intro buf d ext hf
    have hb : buf = [] := List.length_eq_zero.mp (Nat.le_zero.mp hf)
    subst hb
    simp only [dataLoopF, List.nil_append]
  | succ f ih =>
    intro buf d ext hf
    rw [dataLoopF]
    cases he : extract_packet buf d with
    | mk o rest =>
      obtain ⟨b2, d2⟩ := rest
      cases o with
      | none =>
        dsimp only
        exact dataRun_congr (extractPacketF_append_none ext (Nat.le_refl _) he)
      | some m =>
        dsimp only
        have hshrink := extractPacketF_some_shrink he
        have happ : extract_packet (buf ++ ext) d = (some m, b2 ++ ext, d2) :=
          extractPacketF_mono_some (by simp only [List.length_append]; omega)
            (extractPacketF_append_some ext he)
        rw [dataRun_eq_succ, dataLoopF, happ]
        dsimp only
        have hfuel : dataLoopF (buf ++ ext).length (b2 ++ ext) [] = dataRun (b2 ++ ext) [] :=
          @dataLoopF_fuel_irrel (buf ++ ext).length (b2 ++ ext).length (b2 ++ ext) []
            (by simp only [List.length_append]; omega) (Nat.le_refl _)
        rw [hfuel, ih ext (by omega)]
        simp only [List.cons_append]

/-- From a quiescent state, feeding the chunks one at a time equals
feeding their concatenation at once. -/
theorem feedChunks_eq_join :
    ∀ {chunks : List (List Nat)} {bf df : List Nat},
      extract_packet bf df = (none, bf, df) →
      feedChunks bf df chunks = dataRun (bf ++ chunks.flatten) df := by
  intro chunks
  induction chunks with
  | nil =>
    intro bf df hq
    rw [feedChunks, List.flatten_nil, List.append_nil]
    rw [dataRun_eq_succ, dataLoopF, hq]
  | cons c rest ih =>
    intro bf df hq
    rw [feedChunks]
    rw [data_received_eq]
    have hqr : extract_packet (dataRun (bf ++ c) df).1 (dataRun (bf ++ c) df).2.1 =
        (none, (dataRun (bf ++ c) df).1, (dataRun (bf ++ c) df).2.1) :=
      dataLoopF_final_quiescent (Nat.le_refl (bf ++ c).length)
        (show dataLoopF (bf ++ c).length (bf ++ c) df =
          ((dataRun (bf ++ c) df).1, (dataRun (bf ++ c) df).2.1,
            (dataRun (bf ++ c) df).2.2) from rfl)
    rw [ih hqr]
    rw [List.flatten_cons, ← List.append_assoc]
    rw [dataRun_append rest.flatten (Nat.le_refl (bf ++ c).length)]
    rfl

/-- Neither the extracted message nor the final buffer of an extraction
attempt depends on the current dropped buffer (it is only appended to). -/
theorem extractPacketF_dropped_proj :
    ∀ {f : Nat} {buf d e : List Nat},
      (extractPacketF f buf d).1 = (extractPacketF f buf e).1 ∧
      (extractPacketF f buf d).2.1 = (extractPacketF f buf e).2.1 := by
  intro f
  induction f with
  | zero => intro buf d e; exact ⟨rfl, rfl⟩
  | succ f ih =>
    intro buf d e
    rw [extractPacketF, extractPacketF]
    by_cases h3 : buf.length < 3
    · rw [if_pos h3, if_pos h3]
      exact ⟨rfl, rfl⟩
    · rw [if_neg h3, if_neg h3]
      cases hm : packetLengthMap (buf.headD 0) with
      | none =>
        dsimp only
        cases hs : splitAtEOL buf with
        | none => exact ⟨rfl, rfl⟩
        | some pr => exact ⟨rfl, rfl⟩
      | some plen =>
        dsimp only
        by_cases hlt : buf.length < plen
        · rw [if_pos hlt, if_pos hlt]
          exact ⟨rfl, rfl⟩
        · rw [if_neg hlt, if_neg hlt]
          by_cases hend : (buf.take plen).drop (plen - 3) = EOL
          · rw [if_pos hend, if_pos hend]
            exact ⟨rfl, rfl⟩
          · rw [if_neg hend, if_neg hend]
            cases hs : splitAtEOL buf with
            | none => exact ⟨rfl, rfl⟩
            | some pr =>
              obtain ⟨msg, left⟩ := pr
              dsimp only
              exact ih

/-- The sequence of delivered messages does not depend on the dropped
buffer either: dropped bytes are diagnostic only and never delivered. -/
theorem dataLoopF_deliveries_dropped :
    ∀ {f : Nat} {buf d e : List Nat},
      (dataLoopF f buf d).1 = (dataLoopF f buf e).1 ∧
      (dataLoopF f buf d).2.2 = (dataLoopF f buf e).2.2 := by
  intro f
  induction f with
  | zero => intro buf d e; exact ⟨rfl, rfl⟩
  | succ f ih =>
    intro buf d e
    rw [dataLoopF, dataLoopF]
    cases he : extract_packet buf d with
    | mk o rest =>
      obtain ⟨b2, d2⟩ := rest
      have hproj : (extract_packet buf d).1 = (extract_packet buf e).1 ∧
          (extract_packet buf d).2.1 = (extract_packet buf e).2.1 :=
        extractPacketF_dropped_proj
      rw [he] at hproj
      cases hpe : extract_packet buf e with
      | mk oe reste =>
        obtain ⟨b2e, d2e⟩ := reste
        rw [hpe] at hproj
        obtain ⟨ho, hb⟩ := hproj
        dsimp only at ho hb
        subst ho
        subst hb
        cases o with
        | none => exact ⟨rfl, rfl⟩
        | some m => exact ⟨rfl, rfl⟩

/-- Well-routedness of every delivery: events to the event handler,
everything else to the reply queue. -/
theorem dataLoopF_routing :
    ∀ {f : Nat} {buf d : List Nat} {x : Delivery}, x ∈ (dataLoopF f buf d).2.2 →
      (∃ m, is_event m = true ∧ x = Delivery.event m) ∨
      (∃ m, is_event m = false ∧ x = Delivery.reply m) := by
  intro f
  induction f with
  | zero => intro buf d x hx; simp [dataLoopF] at hx
  | succ f ih =>
    intro buf d x hx
    rw [dataLoopF] at hx
    cases he : extract_packet buf d with
    | mk o rest =>
      obtain ⟨b2, d2⟩ := rest
      rw [he] at hx
      cases o with
      | none => simp at hx
      | some m =>
        dsimp only at hx
        rcases List.mem_cons.mp hx with hx1 | hx2
        · by_cases hev : is_event m
          · left
            exact ⟨m, hev, by rw [hx1, if_pos hev]⟩
          · right
            refine ⟨m, by simpa using hev, ?_⟩
            rw [hx1, if_neg hev]
        · exact ih hx2

end Nextion

namespace Nextion

/-! ### Facts about the command retry loop -/

/-- When every read times out, a retrying `_command` run writes the
command once per successful reconnect and finally re-raises the last
`CommandTimeout`. -/
theorem commandLoop_timeout_all {cmd : String} {env : CmdEnv} {fuel : Nat}
    (hr : ∀ i, env.reads i = ReadResult.timeout) :
    ∀ (n ri ci w : Nat), commandLoop cmd env (fuel + 1) n ri ci true w =
      (CmdOutcome.cmdTimeout, w + countRec env.reconnects ci n) := by
  intro n
  induction n with
  | zero => intro ri ci w; simp [commandLoop, countRec]
  | succ n ih =>
    intro ri ci w
    rw [commandLoop]
    cases hrc : env.reconnects ci with
    | false =>
      rw [if_pos (by simp), ih]
      simp [countRec, hrc]
    | true =>
      rw [if_neg (by simp [hrc])]
      rw [innerLoop, hr ri]
      dsimp only
      rw [ih]
      simp [countRec, hrc]
      omega

end Nextion

namespace Nextion

/-! ## The claims -/

/-- C1: For every sequence of wire bytes and every way of splitting those
bytes into chunks passed to successive `NextionProtocol.data_received`
calls, the resulting sequence of delivered messages (event-handler
invocations plus reply-queue entries, in order) — indeed the entire final
framer state — is identical to the sequence produced when all bytes
arrive in a single chunk. -/
theorem C1_chunk_boundary_invariance (chunks : List (List Nat)) :
    feedChunks [] [] chunks = data_received [] [] chunks.flatten :=
  feedChunks_eq_join rfl

/-- C2: When the buffer's leading byte matches a fixed-length tag but the
slice of the declared total length does not end with the terminator, the
framer falls back to splitting at the first terminator occurrence,
appends the consumed bytes to the diagnostic dropped buffer, and retries
extraction on the remainder; the dropped bytes are never delivered: the
whole run is determined by the remainder alone, and the delivered
messages do not depend on the dropped buffer at all. -/
theorem C2_fixed_length_fallback {buf d msg rem : List Nat} {plen : Nat}
    (hm : packetLengthMap (buf.headD 0) = some plen)
    (hlen : plen ≤ buf.length)
    (hend : (buf.take plen).drop (plen - 3) ≠ EOL)
    (hs : splitAtEOL buf = some (msg, rem)) :
    extract_packet buf d = extract_packet rem (d ++ msg ++ EOL) ∧
    dataRun buf d = dataRun rem (d ++ msg ++ EOL) ∧
    (dataRun rem (d ++ msg ++ EOL)).2.2 = (dataRun rem []).2.2 := by
  have h4 := packetLengthMap_ge hm
  have h3 : ¬ buf.length < 3 := by omega
  have hlt : ¬ buf.length < plen := by omega
  have h1 := @extract_packet_fallback_step buf d plen msg rem h3 hm hlt hend hs
  exact ⟨h1, dataRun_congr h1,
    (@dataLoopF_deliveries_dropped rem.length rem (d ++ msg ++ EOL) []).2⟩

theorem C2_fixed_length_fallback_witness :
    extract_packet [0x71, 0xff, 0xff, 0xff, 0x71, 0xa5, 0xff, 0xff, 0xff, 0xff, 0xff, 0xff] [] =
      extract_packet [0x71, 0xa5, 0xff, 0xff, 0xff, 0xff, 0xff, 0xff] ([] ++ [0x71] ++ EOL) ∧
    dataRun [0x71, 0xff, 0xff, 0xff, 0x71, 0xa5, 0xff, 0xff, 0xff, 0xff, 0xff, 0xff] [] =
      dataRun [0x71, 0xa5, 0xff, 0xff, 0xff, 0xff, 0xff, 0xff] ([] ++ [0x71] ++ EOL) ∧
    (dataRun [0x71, 0xa5, 0xff, 0xff, 0xff, 0xff, 0xff, 0xff] ([] ++ [0x71] ++ EOL)).2.2 =
      (dataRun [0x71, 0xa5, 0xff, 0xff, 0xff, 0xff, 0xff, 0xff] []).2.2 :=
  @C2_fixed_length_fallback
    [0x71, 0xff, 0xff, 0xff, 0x71, 0xa5, 0xff, 0xff, 0xff, 0xff, 0xff, 0xff] [] [0x71]
    [0x71, 0xa5, 0xff, 0xff, 0xff, 0xff, 0xff, 0xff] 8
    (by decide) (by decide) (by decide) (by decide)

/-- C3: Every extracted frame is routed to exactly one destination: an
event-tagged frame goes to the event handler and never to the reply
queue, any other frame is enqueued as a reply; the event frame
`65 01 03 01 FF FF FF` produces exactly one delivery, a Touch event with
page_id 1, component_id 3, touch_event 1, and nothing ever enters the
reply queue for it. -/
theorem C3_event_routing :
    (∀ (f : Nat) (buf d : List Nat) (x : Delivery), x ∈ (dataLoopF f buf d).2.2 →
      (∃ m, is_event m = true ∧ x = Delivery.event m) ∨
      (∃ m, is_event m = false ∧ x = Delivery.reply m)) ∧
    data_received [] [] [0x65, 1, 3, 1, 0xff, 0xff, 0xff] =
      ([], [], [Delivery.event [0x65, 1, 3, 1]]) ∧
    handle_event [0x65, 1, 3, 1] = some (HandledEvent.touch ⟨1, 3, 1⟩) := by
  refine ⟨fun f buf d x hx => dataLoopF_routing hx, by decide, rfl⟩

theorem C3_event_routing_witness :
    (∃ m, is_event m = true ∧ Delivery.event [0x65, 1, 3, 1] = Delivery.event m) ∨
    (∃ m, is_event m = false ∧ Delivery.event [0x65, 1, 3, 1] = Delivery.reply m) :=
  C3_event_routing.1 7 [0x65, 1, 3, 1, 0xff, 0xff, 0xff] []
    (Delivery.event [0x65, 1, 3, 1]) (by decide)

end Nextion

namespace Nextion

/-- C4: A reply frame consisting of a single byte other than `0x01` makes
the executor raise `CommandFailed` immediately — whatever the remaining
attempt budget, no retry happens and exactly the one write was made —
with the reason from the fixed failure-code table: code `0x03` names
"Page ID invalid", a code absent from the table yields the unknown-code
message. -/
theorem C4_command_failed {cmd : String} {env : CmdEnv} {f n ri ci w c : Nat}
    (hread : env.reads ri = ReadResult.frame [c]) (hc : c ≠ 0x01) :
    commandLoop cmd env (f + 1) (n + 1) ri ci false w = (CmdOutcome.cmdFailed c, w + 1) ∧
    commandFailedMsg cmd 0x03 = "Page ID invalid for command: " ++ cmd ∧
    (∀ code, command_failed_codes code = none →
      commandFailedMsg cmd code =
        "Unknown response code 0x" ++ hex2 code ++ " for command: '" ++ cmd ++ "'") := by
  refine ⟨?_, rfl, fun code h => by rw [commandFailedMsg, h]⟩
  rw [commandLoop, if_neg (by simp), innerLoop, hread]
  simp [hc]

theorem C4_command_failed_witness :
    commandLoop "page 5" ⟨fun _ => ReadResult.frame [0x03], fun _ => true⟩ 10 3 0 0 false 0 =
      (CmdOutcome.cmdFailed 0x03, 1) ∧
    commandFailedMsg "page 5" 0x03 = "Page ID invalid for command: " ++ "page 5" ∧
    (∀ code, command_failed_codes code = none →
      commandFailedMsg "page 5" code =
        "Unknown response code 0x" ++ hex2 code ++ " for command: '" ++ "page 5" ++ "'") :=
  @C4_command_failed "page 5" ⟨fun _ => ReadResult.frame [0x03], fun _ => true⟩ 9 2 0 0 0 3
    rfl (by decide)

end Nextion

namespace Nextion

/-! ### Facts about the pending-set map -/

/-- `_pending_sets[key] = value` keeps keys distinct and leaves exactly
one entry for the written key. -/
theorem updatePending_keys {pend : List (String × PyObj)} {k : String} {v : PyObj}
    (hn : (pend.map Prod.fst).Nodup) :
    ((updatePending pend k v).map Prod.fst).Nodup ∧
    (updatePending pend k v).countP (fun q => decide (q.1 = k)) = 1 := by
  rw [updatePending]
  by_cases hmem : pend.any (fun p => p.1 = k)
  · rw [if_pos hmem]
    have hkeys : (pend.map (fun p => if p.1 = k then (k, v) else p)).map Prod.fst =
        pend.map Prod.fst := by
      rw [List.map_map]
      apply List.map_congr_left
      intro p _
      by_cases hp : p.1 = k
      · simp [hp]
      · simp [hp]
    constructor
    · rw [hkeys]; exact hn
    · have hcnt : ∀ (l : List (String × PyObj)),
          l.countP (fun q => decide (q.1 = k)) = (l.map Prod.fst).count k := by
        intro l
        rw [List.count, List.countP_map]
        rfl
      rw [hcnt, hkeys, ← hcnt]
      rw [hcnt pend] at *
      have hk : k ∈ pend.map Prod.fst := by
        rcases List.any_eq_true.mp hmem with ⟨p, hp, hpk⟩
        exact List.mem_map.mpr ⟨p, hp, of_decide_eq_true hpk⟩
      exact List.count_eq_one_of_mem hn hk
  · rw [if_neg hmem]
    have hk : k ∉ pend.map Prod.fst := by
      intro hmm
      rcases List.mem_map.mp hmm with ⟨p, hp, hpk⟩
      exact hmem (List.any_eq_true.mpr ⟨p, hp, decide_eq_true hpk⟩)
    constructor
    · rw [List.map_append]
      simp [List.nodup_append, hn, hk]
    · rw [List.countP_append]
      have h0 : pend.countP (fun q => decide (q.1 = k)) = 0 := by
        rw [List.countP_eq_zero]
        intro p hp
        simp only [decide_eq_true_eq]
        intro hpk
        exact hk (List.mem_map.mpr ⟨p, hp, hpk⟩)
      simp [h0]

/-- Every entry of the pending map whose value formats issues exactly its
one `key=value` command in the wakeup flush. -/
theorem flush_formatted :
    ∀ (l : List (String × PyObj)), (∀ p ∈ l, (formatValue p.2).isSome = true) →
      l.filterMap (fun p =>
        match set ⟨false, []⟩ p.1 p.2 with
        | (.ok (some cmd), _) => some cmd
        | _ => none) =
      l.map (fun p => p.1 ++ "=" ++ ((formatValue p.2).getD "")) := by
  intro l
  induction l with
  | nil => intro _; rfl
  | cons hd t ih =>
    intro hfmt
    obtain ⟨out, hout⟩ := Option.isSome_iff_exists.mp (hfmt hd (List.mem_cons_self hd t))
    rw [List.filterMap_cons, List.map_cons]
    rw [set, hout]
    dsimp only
    rw [if_neg (by simp)]
    rw [ih (fun p hp => hfmt p (List.mem_cons_of_mem hd hp))]
    rfl

end Nextion

namespace Nextion

/-- C5: While the sleep flag is set, `set(key, value)` with a key other
than `"sleep"` writes no command: the value is stored in the pending-set
map (overwriting, keeping one entry per key) and the call returns the
not-executed result `None`.  A subsequent `wakeup()` issues `sleep=0`
followed by exactly one write per pending entry and clears the map —
for Scenario E exactly one write `var.txt="Hello"`. -/
theorem C5_sleep_deferred_set :
    (∀ (st : ClientState) (k : String) (v : PyObj) (out : String),
      st.sleeping = true → k ≠ "sleep" → formatValue v = some out →
      set st k v = (.ok none, { st with pending := updatePending st.pending k v })) ∧
    (∀ st : ClientState, st.sleeping = true →
      (∀ p ∈ st.pending, (formatValue p.2).isSome = true) →
      wakeup st = ({ sleeping := false, pending := [] },
        "sleep=0" :: st.pending.map (fun p => p.1 ++ "=" ++ ((formatValue p.2).getD "")))) ∧
    (∀ (pend : List (String × PyObj)) (k : String) (v : PyObj),
      (pend.map Prod.fst).Nodup →
      ((updatePending pend k v).map Prod.fst).Nodup ∧
      (updatePending pend k v).countP (fun q => decide (q.1 = k)) = 1) ∧
    (set ⟨true, []⟩ "var.txt" (PyObj.pstr "Hello") =
      (.ok none, ⟨true, [("var.txt", PyObj.pstr "Hello")]⟩) ∧
     wakeup ⟨true, [("var.txt", PyObj.pstr "Hello")]⟩ =
      (⟨false, []⟩, ["sleep=0", "var.txt=\"Hello\""])) := by
  refine ⟨?_, ?_, fun pend k v hn => updatePending_keys hn, by constructor <;> rfl⟩
  · intro st k v out hsleep hk hout
    rw [set, hout]
    dsimp only
    rw [if_pos ⟨hsleep, hk⟩]
  · intro st hsleep hfmt
    rw [wakeup, hsleep]
    rw [if_neg (by simp)]
    rw [on_wakeup]
    dsimp only
    rw [flush_formatted st.pending hfmt]

theorem C5_sleep_deferred_set_witness :
    set ⟨true, [("var.txt", PyObj.pstr "old")]⟩ "var.txt" (PyObj.pstr "Hello") =
      (.ok none, { ClientState.mk true [("var.txt", PyObj.pstr "old")] with
        pending := updatePending [("var.txt", PyObj.pstr "old")] "var.txt" (PyObj.pstr "Hello") }) ∧
    wakeup ⟨true, [("var.txt", PyObj.pstr "Hello")]⟩ =
      (⟨false, []⟩, "sleep=0" :: [("var.txt", PyObj.pstr "Hello")].map
        (fun p => p.1 ++ "=" ++ ((formatValue p.2).getD ""))) ∧
    (((updatePending [("var.txt", PyObj.pstr "Hello")] "var.txt" (PyObj.pstr "old")).map
        Prod.fst).Nodup ∧
      (updatePending [("var.txt", PyObj.pstr "Hello")] "var.txt"
        (PyObj.pstr "old")).countP (fun q => decide (q.1 = "var.txt")) = 1) := by
  refine ⟨C5_sleep_deferred_set.1 ⟨true, [("var.txt", PyObj.pstr "old")]⟩ "var.txt"
      (PyObj.pstr "Hello") "\"Hello\"" rfl (by decide) rfl,
    C5_sleep_deferred_set.2.1 ⟨true, [("var.txt", PyObj.pstr "Hello")]⟩ rfl
      (fun p hp => ?_), ?_⟩
  · rcases List.mem_singleton.mp hp with rfl
    rfl
  · exact C5_sleep_deferred_set.2.2.1 [("var.txt", PyObj.pstr "Hello")] "var.txt"
      (PyObj.pstr "old") (by decide)

/-- C10: For every value that is not a `str`, `float` or `int` (for
example `None` or a list), `Nextion.set(key, value)` raises `TypeError`
before any command is written and leaves the client state — the
pending-set map and the sleep flag — unchanged. -/
theorem C10_set_type_error :
    (∀ (st : ClientState) (k : String) (v : PyObj), formatValue v = none →
      set st k v = (.error (), st)) ∧
    formatValue PyObj.pnone = none ∧ formatValue PyObj.plist = none := by
  refine ⟨fun st k v h => ?_, rfl, rfl⟩
  rw [set, h]

theorem C10_set_type_error_witness :
    set ⟨true, []⟩ "var.txt" PyObj.pnone = (.error (), (⟨true, []⟩ : ClientState)) :=
  C10_set_type_error.1 ⟨true, []⟩ "var.txt" PyObj.pnone rfl

end Nextion

namespace Nextion

/-- C6 counterexample: a device-absent failure (OSError errno 2, raised
as plain `ConnectionFailed`) at the first candidate does not abort the
scan: the next candidate is still tried, and here succeeds. -/
theorem C6_counterexample :
    scanBauds (fun b => if b = 2400 then AttemptOutcome.deviceAbsent else AttemptOutcome.ok)
      [2400, 4800] = ScanResult.connected 4800 := rfl

/-- C6 (amended): in the baud scan, a device-absent failure is raised as
plain `ConnectionFailed`, is caught by the loop, and — exactly like a
baud-unsupported failure — merely advances to the next candidate; when no
candidate succeeds, the scan raises the non-recoverable
`ConnectionFailed("No baud rate suited")`. -/
theorem C6_baud_scan {env : Nat → AttemptOutcome} :
    (∀ (b : Nat) (rest : List Nat), env b = AttemptOutcome.deviceAbsent →
      scanBauds env (b :: rest) = scanBauds env rest) ∧
    (∀ (b : Nat) (rest : List Nat), env b = AttemptOutcome.baudUnsupported →
      scanBauds env (b :: rest) = scanBauds env rest) ∧
    (∀ l : List Nat,
      (∀ b ∈ l, env b = AttemptOutcome.deviceAbsent ∨ env b = AttemptOutcome.baudUnsupported) →
      scanBauds env l = ScanResult.raised (ConnExc.connectionFailed "No baud rate suited")) := by
  refine ⟨fun b rest h => by rw [scanBauds, h]; rfl, fun b rest h => by rw [scanBauds, h]; rfl, ?_⟩
  intro l
  induction l with
  | nil => intro _; rfl
  | cons b rest ih =>
    intro hall
    rcases hall b (List.mem_cons_self b rest) with h | h <;>
      rw [scanBauds, h] <;>
      exact ih (fun x hx => hall x (List.mem_cons_of_mem b hx))

theorem C6_baud_scan_witness :
    (scanBauds (fun b => if b = 2400 then AttemptOutcome.deviceAbsent
        else AttemptOutcome.baudUnsupported) [2400, 4800] =
      scanBauds (fun b => if b = 2400 then AttemptOutcome.deviceAbsent
        else AttemptOutcome.baudUnsupported) [4800]) ∧
    (scanBauds (fun b => if b = 2400 then AttemptOutcome.deviceAbsent
        else AttemptOutcome.baudUnsupported) [4800] =
      scanBauds (fun b => if b = 2400 then AttemptOutcome.deviceAbsent
        else AttemptOutcome.baudUnsupported) []) ∧
    scanBauds (fun b => if b = 2400 then AttemptOutcome.deviceAbsent
        else AttemptOutcome.baudUnsupported) [2400, 4800] =
      ScanResult.raised (ConnExc.connectionFailed "No baud rate suited") :=
  ⟨C6_baud_scan.1 2400 [4800] (by decide),
   C6_baud_scan.2.1 4800 [] (by decide),
   C6_baud_scan.2.2 [2400, 4800] (by decide)⟩

/-- C7 counterexample: two attempts, every read times out, the first
reconnect fails and every later one would succeed.  The failed
reconnect's iteration consumes the one remaining attempt (the loop
decrements at the top of every iteration), so the run ends in
`CommandTimeout` with the command written exactly once — under the
claim's accounting (a failed reconnect consumes no attempt) the second,
successful reconnect would still have been within budget and the command
would have been reissued. -/
theorem C7_counterexample :
    commandRun "x" ⟨fun _ => ReadResult.timeout, fun i => decide (1 ≤ i)⟩ 2 10 =
      (CmdOutcome.cmdTimeout, 1) := rfl

/-- C7 (amended): after a read timeout, the next iteration of the retry
loop performs the reconnect before any reissue; if the reconnect fails
the executor waits one time unit and continues with the next iteration,
consuming exactly one attempt from the retry budget without reissuing
the command; once the budget is exhausted the recorded `CommandTimeout`
is re-raised.  Consequently, when every read times out, the command is
written once plus once per successful reconnect within the budget. -/
theorem C7_timeout_retry :
    (∀ (cmd : String) (env : CmdEnv) (fuel n ri ci w : Nat),
      env.reconnects ci = false →
      commandLoop cmd env fuel (n + 1) ri ci true w =
        commandLoop cmd env fuel n ri (ci + 1) true w) ∧
    (∀ (cmd : String) (env : CmdEnv) (fuel ri ci w : Nat),
      commandLoop cmd env fuel 0 ri ci true w = (CmdOutcome.cmdTimeout, w)) ∧
    (∀ (cmd : String) (env : CmdEnv) (fuel n ri ci w : Nat),
      (∀ i, env.reads i = ReadResult.timeout) →
      commandLoop cmd env (fuel + 1) (n + 1) ri ci false w =
        (CmdOutcome.cmdTimeout, w + 1 + countRec env.reconnects ci n)) := by
  refine ⟨fun cmd env fuel n ri ci w h => ?_, fun cmd env fuel ri ci w => rfl,
    fun cmd env fuel n ri ci w hr => ?_⟩
  · rw [commandLoop, if_pos ⟨rfl, h⟩]
  · rw [commandLoop, if_neg (by simp), innerLoop, hr ri]
    dsimp only
    rw [commandLoop_timeout_all hr]
    simp

theorem C7_timeout_retry_witness :
    (commandLoop "x" ⟨fun _ => ReadResult.timeout, fun _ => false⟩ 10 2 0 0 true 1 =
      commandLoop "x" ⟨fun _ => ReadResult.timeout, fun _ => false⟩ 10 1 0 1 true 1) ∧
    (commandLoop "x" ⟨fun _ => ReadResult.timeout, fun _ => false⟩ 10 0 0 0 true 1 =
      (CmdOutcome.cmdTimeout, 1)) ∧
    commandLoop "x" ⟨fun _ => ReadResult.timeout, fun _ => true⟩ 10 3 0 0 false 0 =
      (CmdOutcome.cmdTimeout, 0 + 1 + countRec (fun _ => true) 0 2) :=
  ⟨C7_timeout_retry.1 "x" ⟨fun _ => ReadResult.timeout, fun _ => false⟩ 10 1 0 0 1 rfl,
   C7_timeout_retry.2.1 "x" ⟨fun _ => ReadResult.timeout, fun _ => false⟩ 10 0 0 1,
   C7_timeout_retry.2.2 "x" ⟨fun _ => ReadResult.timeout, fun _ => true⟩ 9 2 0 0 0
     (fun _ => rfl)⟩

/-- C8: With pending input bytes `71 A5 FF FF FF FF FF FF` the framer
uses the fixed total length 8 declared for tag `0x71`, so the
terminator-like run inside the payload is not a frame boundary: one
reply frame `71 A5 FF FF FF` is delivered; a `get` command decodes its
four payload bytes as a signed little-endian 32-bit integer and
returns -91. -/
theorem C8_fixed_length_numeric_reply :
    data_received [] [] [0x71, 0xa5, 0xff, 0xff, 0xff, 0xff, 0xff, 0xff] =
      ([], [], [Delivery.reply [0x71, 0xa5, 0xff, 0xff, 0xff]]) ∧
    packetLengthMap 0x71 = some 8 ∧
    commandRun "get var1"
      ⟨fun _ => ReadResult.frame [0x71, 0xa5, 0xff, 0xff, 0xff], fun _ => true⟩ 3 10 =
      (CmdOutcome.ret (RetVal.int (-91)), 1) :=
  ⟨by decide, rfl, by decide⟩

/-- C9: `BasicProtocol.write` always transmits exactly `data`, and
`NextionProtocol.write` with `eol=True` transmits `data` plus the
terminator; but with `eol=False` the source's
`self.transport.write(data + self.EOL if eol else b"")` parses as
`(data + EOL) if eol else b""`, so nothing at all is transmitted — not
`data` as the claim (and the raw-upload-mode framing) requires: at
`data = b"\x05"` the transmitted bytes are `b""`, not `b"\x05"`. -/
theorem C9_write_eol :
    (∀ data : List Nat, nextionWrite data true = data ++ EOL) ∧
    (∀ (data : List Nat) (eol : Bool), basicWrite data eol = data) ∧
    nextionWrite [0x05] false = [] ∧ nextionWrite [0x05] false ≠ [0x05] :=
  ⟨fun _ => rfl, fun _ _ => rfl, rfl, by decide⟩

end Nextion
